import Mathlib

/-!
Shallow embedding of the board state-synchronization engine of the
coordination repository: the authoritative Socket.IO handlers of
server.mjs (item:add, item:delete, item:patch, lanes:move, board:pull)
and the replica-side handlers of the client source (board:state,
item:patch:apply).

JavaScript records are modelled as association lists from field names to
string values; the items and lanes maps as association lists with JS
assignment semantics (an existing key keeps its position and receives the
new value, a new key is appended); array splice with its index clamping.
Timestamps are integers; the JS expression mtime-or-Date.now() is
modelled by testing the sender value against 0 (the only falsy integer),
with the server clock passed explicitly as `now`.
-/

namespace Coordination

/-- A JS record of string-valued fields: a board item or a patch payload. -/
abbrev JsObj := List (String × String)

/-- Property lookup on a JS object or map: the first binding of the key wins. -/
def alistGet {α : Type} (k : String) : List (String × α) → Option α
  | [] => none
  | (k', v) :: rest => if k = k' then some v else alistGet k rest

/-- Overwrite every binding of key `k` in place, as JS assignment does to an
existing key; every other binding is kept untouched in position. -/
def alistSetKey {α : Type} (k : String) (v : α) : List (String × α) → List (String × α)
  | [] => []
  | (k', w) :: rest => (if k = k' then (k, v) else (k', w)) :: alistSetKey k v rest

/-- JS object assignment: an existing key keeps its position and gets the
new value, a new key is appended at the end. -/
def jsAssign {α : Type} (l : List (String × α)) (k : String) (v : α) :
    List (String × α) :=
  if (alistGet k l).isSome then alistSetKey k v l else l ++ [(k, v)]

/-- JS object spread of `e` followed by `p`: keys of `e` keep their
positions with values overridden by `p` where present; keys only in `p`
are appended in `p` order. This is the shallow merge of item:patch. -/
def jsMerge (e p : JsObj) : JsObj :=
  (e.map fun kv =>
    match alistGet kv.1 p with
    | some v => (kv.1, v)
    | none => kv)
  ++ p.filter fun kv => (alistGet kv.1 e).isNone

/-- JS `arr.splice(i, 0, x)`: the start index is clamped to the interval
from 0 to the array length (negative values count from the end), then `x`
is inserted at that position. -/
def spliceInsert (l : List String) (i : Int) (x : String) : List String :=
  l.take (if i < 0 then max ((l.length : Int) + i) 0 else min i (l.length : Int)).toNat
    ++ x :: l.drop (if i < 0 then max ((l.length : Int) + i) 0 else min i (l.length : Int)).toNat

/-- Insertion as the handlers perform it: `splice(index, 0, x)` when a
numeric index was supplied, else `unshift(x)` (insert at the head). -/
def insertIdx (l : List String) (index : Option Int) (x : String) : List String :=
  match index with
  | some i => spliceInsert l i x
  | none => x :: l

/-- Number of occurrences of a value in a list of ids. -/
def countOcc (v : String) : List String → Nat
  | [] => 0
  | x :: rest => (if x = v then 1 else 0) + countOcc v rest

/-- The shared in-memory board state of server.mjs: lane name to ordered
id list, item id to item record, and the lastUpdated marker. -/
structure BoardState where
  lanes : List (String × List String)
  items : List (String × JsObj)
  lastUpdated : Int
deriving DecidableEq

/-- The applied-operation broadcasts the authority emits to the other
connected sockets (socket.broadcast.emit). -/
inductive Broadcast where
  | addApply (item : JsObj) (lane : String) (index : Option Int) (mtime : Int)
  | deleteApply (id : String) (mtime : Int)
  | patchApply (id : String) (patch : JsObj) (mtime : Int)
  | moveApply (id fromLane toLane : String) (index : Option Int) (mtime : Int)
deriving DecidableEq

/-- The initial board state of server.mjs: the five configured lanes, all
empty, no items, lastUpdated stamped with the startup clock `d0`. -/
def initState (d0 : Int) : BoardState :=
  { lanes := [("Unassigned", []), ("New York", []), ("Curacao", []),
              ("Piarco", []), ("Maiquetia", [])]
    items := []
    lastUpdated := d0 }

/-- The timestamp actually stored: the sender-supplied `mtime` unless it
is falsy (0), in which case the server clock `now` is used. -/
def resolveTime (mtime now : Int) : Int := if mtime = 0 then now else mtime

/-- The item:add handler of server.mjs. Rejects (silent no-op, no
broadcast) a missing or empty item id, an empty lane name, or an unknown
lane; otherwise stores the item record under its id (overwriting any
existing record), filters the id out of the target lane and inserts it at
the requested index (head if none), and stamps lastUpdated. -/
def itemAdd (s : BoardState) (item : JsObj) (lane : String) (index : Option Int)
    (mtime now : Int) : BoardState × Option Broadcast :=
  match alistGet "id" item with
  | none => (s, none)
  | some i =>
    if i = "" then (s, none)
    else if lane = "" then (s, none)
    else
      match alistGet lane s.lanes with
      | none => (s, none)
      | some laneList =>
        ({ lanes := jsAssign s.lanes lane (insertIdx (laneList.filter fun x => x != i) index i)
           items := jsAssign s.items i item
           lastUpdated := resolveTime mtime now },
         some (Broadcast.addApply item lane index (resolveTime mtime now)))

/-- The item:delete handler of server.mjs. No-op without broadcast when
the id is falsy or not a key of items; otherwise removes the record and
filters the id out of every lane. -/
def itemDelete (s : BoardState) (id : String) (mtime now : Int) :
    BoardState × Option Broadcast :=
  if id = "" then (s, none)
  else
    match alistGet id s.items with
    | none => (s, none)
    | some _ =>
      ({ lanes := s.lanes.map fun kv => (kv.1, kv.2.filter fun x => x != id)
         items := s.items.filter fun kv => kv.1 != id
         lastUpdated := resolveTime mtime now },
       some (Broadcast.deleteApply id (resolveTime mtime now)))

/-- The item:patch handler of server.mjs. No-op without broadcast when the
id is falsy or unknown (the guard against a non-object payload is outside
this model, whose payloads are always objects); otherwise shallow-merges
the payload into the existing record. -/
def itemPatch (s : BoardState) (id : String) (patch : JsObj) (mtime now : Int) :
    BoardState × Option Broadcast :=
  if id = "" then (s, none)
  else
    match alistGet id s.items with
    | none => (s, none)
    | some existing =>
      ({ s with
          items := jsAssign s.items id (jsMerge existing patch)
          lastUpdated := resolveTime mtime now },
       some (Broadcast.patchApply id patch (resolveTime mtime now)))

/-- The lanes:move handler of server.mjs. No-op without broadcast when the
id or either lane name is falsy or a lane is unknown. Otherwise computes
the source lane with the id filtered out and the target lane as a copy of
its previous (unfiltered) list with the id inserted, then writes the
source entry and afterwards the target entry, so with equal lanes the
target write overwrites the filtered source write. -/
def lanesMove (s : BoardState) (id fromLane toLane : String) (index : Option Int)
    (mtime now : Int) : BoardState × Option Broadcast :=
  if id = "" ∨ fromLane = "" ∨ toLane = "" then (s, none)
  else
    match alistGet fromLane s.lanes, alistGet toLane s.lanes with
    | some fromList, some toList =>
      ({ s with
          lanes := jsAssign (jsAssign s.lanes fromLane (fromList.filter fun x => x != id))
                     toLane (insertIdx toList index id)
          lastUpdated := resolveTime mtime now },
       some (Broadcast.moveApply id fromLane toLane index (resolveTime mtime now)))
    | _, _ => (s, none)

/-- The board:pull handler of server.mjs: replies with the current board
state and performs no mutation. First component: the state afterwards;
second: the emitted board:state reply. -/
def boardPull (s : BoardState) : BoardState × BoardState := (s, s)

/-- The replica board:state handler of the client source: replaces the
entire local state with the incoming snapshot, with every lane list
filtered to the ids that are keys of the snapshot items map. -/
def replicaBoardState (incoming : BoardState) : BoardState :=
  { incoming with
      lanes := incoming.lanes.map fun kv =>
        (kv.1, kv.2.filter fun i => (alistGet i incoming.items).isSome) }

/-- The replica item:patch:apply handler of the client source: no-op when
the id is not a key of the local items map, otherwise the same shallow
merge as the authority performs. -/
def replicaPatchApply (prev : BoardState) (id : String) (patch : JsObj)
    (mtime now : Int) : BoardState :=
  match alistGet id prev.items with
  | none => prev
  | some existing =>
    { prev with
        items := jsAssign prev.items id (jsMerge existing patch)
        lastUpdated := resolveTime mtime now }

/-- One inbound mutation operation at the authority. -/
inductive Op where
  | add (item : JsObj) (lane : String) (index : Option Int) (mtime : Int)
  | del (id : String) (mtime : Int)
  | patch (id : String) (fields : JsObj) (mtime : Int)
  | move (id fromLane toLane : String) (index : Option Int) (mtime : Int)
deriving DecidableEq

/-- Dispatch of one operation to its handler; `now` is the server clock
reading during that handler call. -/
def applyOp (s : BoardState) (o : Op) (now : Int) : BoardState × Option Broadcast :=
  match o with
  | .add item lane index mtime => itemAdd s item lane index mtime now
  | .del id mtime => itemDelete s id mtime now
  | .patch id fields mtime => itemPatch s id fields mtime now
  | .move id fromLane toLane index mtime => lanesMove s id fromLane toLane index mtime now

/-- The state after a finite sequence of operations, each paired with the
server clock reading at its arrival. -/
def runOps (s : BoardState) : List (Op × Int) → BoardState
  | [] => s
  | (o, now) :: rest => runOps (applyOp s o now).1 rest

/-- The operation preconditions stated in the spec beyond what the code
checks: an add carries an id not already present in items, and a move
targets an id currently in the source lane list. -/
def goodOp (s : BoardState) (o : Op) : Bool :=
  match o with
  | .add item _ _ _ =>
    match alistGet "id" item with
    | some i => (alistGet i s.items).isNone
    | none => true
  | .move i fromLane _ _ _ =>
    match alistGet fromLane s.lanes with
    | some l => decide (i ∈ l)
    | none => true
  | _ => true

/-- A run in which every operation meets the spec preconditions at the
state it is applied to. -/
def goodRun (s : BoardState) : List (Op × Int) → Bool
  | [] => true
  | (o, now) :: rest => goodOp s o && goodRun (applyOp s o now).1 rest

/-- Invariant 1 of the data model: every id in any lane list is a key of
the items map. -/
def RefIntegrity (s : BoardState) : Prop :=
  ∀ kv ∈ s.lanes, ∀ i ∈ kv.2, (alistGet i s.items).isSome = true

/-- Invariant 2 of the data model: an id appears in the lists of at most
one lane. -/
def OneLane (s : BoardState) : Prop :=
  ∀ kv ∈ s.lanes, ∀ kw ∈ s.lanes, ∀ i, i ∈ kv.2 → i ∈ kw.2 → kv.1 = kw.1

/-- Referential integrity of a board state: both lane invariants. -/
def Integrity (s : BoardState) : Prop := RefIntegrity s ∧ OneLane s

/-! ### Lookup and membership lemmas for the association-list model -/

theorem alistGet_append_some {α : Type} {k : String} {l1 l2 : List (String × α)} {v : α}
    (h : alistGet k l1 = some v) : alistGet k (l1 ++ l2) = some v := by
  induction l1 with
  | nil => simp [alistGet] at h
  | cons p rest ih =>
    obtain ⟨k', w⟩ := p
    by_cases hk : k = k'
    · simp only [alistGet, if_pos hk] at h
      simp only [List.cons_append, alistGet, if_pos hk]
      exact h
    · simp only [alistGet, if_neg hk] at h
      simp only [List.cons_append, alistGet, if_neg hk]
      exact ih h

theorem alistGet_append_none {α : Type} {k : String} {l1 l2 : List (String × α)}
    (h : alistGet k l1 = none) : alistGet k (l1 ++ l2) = alistGet k l2 := by
  induction l1 with
  | nil => simp
  | cons p rest ih =>
    obtain ⟨k', w⟩ := p
    by_cases hk : k = k'
    · simp only [alistGet, if_pos hk] at h
      cases h
    · simp only [alistGet, if_neg hk] at h
      simp only [List.cons_append, alistGet, if_neg hk]
      exact ih h

theorem alistGet_alistSetKey_self {α : Type} (k : String) (v : α) (l : List (String × α)) :
    alistGet k (alistSetKey k v l) = (alistGet k l).map fun _ => v := by
  induction l with
  | nil => rfl
  | cons p rest ih =>
    obtain ⟨k', w⟩ := p
    simp only [alistSetKey]
    by_cases hk : k = k'
    · rw [if_pos hk]
      simp [alistGet, hk]
    · rw [if_neg hk]
      simp [alistGet, hk, ih]

theorem alistGet_alistSetKey_ne {α : Type} {x k : String} (v : α) (l : List (String × α))
    (h : x ≠ k) : alistGet x (alistSetKey k v l) = alistGet x l := by
  induction l with
  | nil => rfl
  | cons p rest ih =>
    obtain ⟨k', w⟩ := p
    simp only [alistSetKey]
    by_cases hk : k = k'
    · subst hk
      rw [if_pos rfl]
      simp [alistGet, h, ih]
    · rw [if_neg hk]
      by_cases hx : x = k'
      · simp [alistGet, hx]
      · simp [alistGet, hx, ih]

theorem alistGet_jsAssign_self {α : Type} (l : List (String × α)) (k : String) (v : α) :
    alistGet k (jsAssign l k v) = some v := by
  cases hg : alistGet k l with
  | none => simp [jsAssign, hg, alistGet_append_none hg, alistGet]
  | some w => simp [jsAssign, hg, alistGet_alistSetKey_self]

theorem alistGet_jsAssign_ne {α : Type} {x k : String} (l : List (String × α)) (v : α)
    (h : x ≠ k) : alistGet x (jsAssign l k v) = alistGet x l := by
  cases hg : alistGet k l with
  | none =>
    cases hx : alistGet x l with
    | none => simp [jsAssign, hg, alistGet_append_none hx, alistGet, h]
    | some w => simp [jsAssign, hg, alistGet_append_some hx, hx]
  | some w => simp [jsAssign, hg, alistGet_alistSetKey_ne v l h]

theorem mem_alistSetKey {α : Type} {p : String × α} {k : String} {v : α}
    {l : List (String × α)} (h : p ∈ alistSetKey k v l) :
    p = (k, v) ∨ (p ∈ l ∧ p.1 ≠ k) := by
  induction l with
  | nil => cases h
  | cons q rest ih =>
    obtain ⟨k', w⟩ := q
    simp only [alistSetKey] at h
    by_cases hk : k = k'
    · rw [if_pos hk] at h
      rcases List.mem_cons.1 h with h1 | h2
      · exact Or.inl h1
      · rcases ih h2 with h3 | ⟨h4, h5⟩
        · exact Or.inl h3
        · exact Or.inr ⟨List.mem_cons_of_mem _ h4, h5⟩
    · rw [if_neg hk] at h
      rcases List.mem_cons.1 h with h1 | h2
      · subst h1
        exact Or.inr ⟨List.mem_cons_self _ _, fun hh => hk hh.symm⟩
      · rcases ih h2 with h3 | ⟨h4, h5⟩
        · exact Or.inl h3
        · exact Or.inr ⟨List.mem_cons_of_mem _ h4, h5⟩

theorem not_key_of_alistGet_none {α : Type} {k : String} {l : List (String × α)}
    (h : alistGet k l = none) {p : String × α} (hp : p ∈ l) : p.1 ≠ k := by
  induction l with
  | nil => cases hp
  | cons q rest ih =>
    obtain ⟨k', w⟩ := q
    by_cases hk : k = k'
    · simp [alistGet, hk] at h
    · simp only [alistGet, if_neg hk] at h
      rcases List.mem_cons.1 hp with hp1 | hp2
      · subst hp1
        exact fun hh => hk hh.symm
      · exact ih h hp2

theorem mem_jsAssign {α : Type} {p : String × α} {l : List (String × α)} {k : String}
    {v : α} (h : p ∈ jsAssign l k v) : p = (k, v) ∨ (p ∈ l ∧ p.1 ≠ k) := by
  unfold jsAssign at h
  cases hg : alistGet k l with
  | none =>
    rw [hg] at h
    simp only [Option.isSome_none, Bool.false_eq_true, if_false, List.mem_append,
      List.mem_singleton] at h
    rcases h with h1 | h2
    · exact Or.inr ⟨h1, not_key_of_alistGet_none hg h1⟩
    · exact Or.inl h2
  | some w =>
    rw [hg] at h
    simp only [Option.isSome_some, if_true] at h
    exact mem_alistSetKey h

theorem alistGet_mem {α : Type} {k : String} {l : List (String × α)} {v : α}
    (h : alistGet k l = some v) : (k, v) ∈ l := by
  induction l with
  | nil => cases h
  | cons p rest ih =>
    obtain ⟨k', w⟩ := p
    by_cases hk : k = k'
    · subst hk
      simp [alistGet] at h
      subst h
      exact List.mem_cons_self _ _
    · simp only [alistGet, if_neg hk] at h
      exact List.mem_cons_of_mem _ (ih h)

theorem alistGet_filterKeyNe_self {α : Type} (d : String) (l : List (String × α)) :
    alistGet d (l.filter fun kv => kv.1 != d) = none := by
  induction l with
  | nil => rfl
  | cons p rest ih =>
    obtain ⟨k', w⟩ := p
    by_cases hk : k' = d
    · simp [List.filter_cons, hk, ih]
    · simp [List.filter_cons, hk, alistGet, Ne.symm hk, ih]

theorem alistGet_filterKeyNe_of_ne {α : Type} {x d : String} (l : List (String × α))
    (h : x ≠ d) : alistGet x (l.filter fun kv => kv.1 != d) = alistGet x l := by
  induction l with
  | nil => rfl
  | cons p rest ih =>
    obtain ⟨k', w⟩ := p
    by_cases hk : k' = d
    · subst hk
      simp [List.filter_cons, alistGet, h, ih]
    · by_cases hx : x = k'
      · simp [List.filter_cons, hk, alistGet, hx]
      · simp [List.filter_cons, hk, alistGet, hx, ih]

theorem alistGet_mergeMap (k : String) (e p : JsObj) :
    alistGet k (e.map fun kv =>
      match alistGet kv.1 p with
      | some v => (kv.1, v)
      | none => kv) =
    match alistGet k e with
    | none => none
    | some w =>
      match alistGet k p with
      | some v => some v
      | none => some w := by
  induction e with
  | nil => rfl
  | cons q rest ih =>
    obtain ⟨k', w'⟩ := q
    by_cases hk : k = k'
    · subst hk
      cases hp : alistGet k p <;> simp [alistGet, hp, ih]
    · cases hp : alistGet k' p <;> simp [alistGet, hk, hp, ih]

theorem alistGet_mergeFilter (k : String) (e p : JsObj) :
    alistGet k (p.filter fun kv => (alistGet kv.1 e).isNone) =
    if (alistGet k e).isNone then alistGet k p else none := by
  induction p with
  | nil => simp [alistGet]
  | cons q rest ih =>
    obtain ⟨k', v'⟩ := q
    by_cases hk : k = k'
    · subst hk
      cases he : alistGet k e <;> simp [List.filter_cons, alistGet, he, ih]
    · cases he : alistGet k' e <;> simp [List.filter_cons, alistGet, hk, he, ih]

theorem alistGet_jsMerge_of_patch {k : String} {e p : JsObj} {v : String}
    (hp : alistGet k p = some v) : alistGet k (jsMerge e p) = some v := by
  have hmap := alistGet_mergeMap k e p
  have hfil := alistGet_mergeFilter k e p
  unfold jsMerge
  cases hee : alistGet k e with
  | none =>
    simp only [hee, Option.isNone_none, if_true] at hmap hfil
    rw [alistGet_append_none hmap, hfil, hp]
  | some w =>
    simp only [hee, hp] at hmap
    exact alistGet_append_some hmap

theorem alistGet_jsMerge_of_nopatch {k : String} {e p : JsObj}
    (hp : alistGet k p = none) : alistGet k (jsMerge e p) = alistGet k e := by
  have hmap := alistGet_mergeMap k e p
  have hfil := alistGet_mergeFilter k e p
  unfold jsMerge
  cases hee : alistGet k e with
  | none =>
    simp only [hee, Option.isNone_none, if_true] at hmap hfil
    rw [alistGet_append_none hmap, hfil, hp]
  | some w =>
    simp only [hee, hp] at hmap
    rw [alistGet_append_some hmap]

theorem mem_takeInsert {x v : String} {l : List String} {n : Nat} :
    x ∈ l.take n ++ v :: l.drop n ↔ x = v ∨ x ∈ l := by
  constructor
  · intro h
    rcases List.mem_append.1 h with h1 | h2
    · exact Or.inr (List.take_subset n l h1)
    · rcases List.mem_cons.1 h2 with h3 | h4
      · exact Or.inl h3
      · exact Or.inr (List.drop_subset n l h4)
  · intro h
    rcases h with h | h
    · exact List.mem_append.2 (Or.inr (h ▸ List.mem_cons_self x _))
    · rw [← List.take_append_drop n l] at h
      rcases List.mem_append.1 h with h1 | h2
      · exact List.mem_append.2 (Or.inl h1)
      · exact List.mem_append.2 (Or.inr (List.mem_cons_of_mem _ h2))

theorem mem_insertIdx {x v : String} {l : List String} {index : Option Int} :
    x ∈ insertIdx l index v ↔ x = v ∨ x ∈ l := by
  cases index with
  | none => simp [insertIdx]
  | some i => exact mem_takeInsert

theorem countOcc_append (v : String) (l1 l2 : List String) :
    countOcc v (l1 ++ l2) = countOcc v l1 + countOcc v l2 := by
  induction l1 with
  | nil => simp [countOcc]
  | cons x rest ih =>
    show (if x = v then 1 else 0) + countOcc v (rest ++ l2) =
      ((if x = v then 1 else 0) + countOcc v rest) + countOcc v l2
    rw [ih, Nat.add_assoc]

theorem countOcc_takeInsert (v : String) (l : List String) (n : Nat) :
    countOcc v (l.take n ++ v :: l.drop n) = countOcc v l + 1 := by
  have hl : countOcc v l = countOcc v (l.take n) + countOcc v (l.drop n) := by
    conv_lhs => rw [← List.take_append_drop n l]
    exact countOcc_append v _ _
  rw [countOcc_append]
  show countOcc v (l.take n) + ((if v = v then 1 else 0) + countOcc v (l.drop n)) = _
  rw [if_pos rfl, hl]
  omega

theorem countOcc_insertIdx (v : String) (l : List String) (index : Option Int) :
    countOcc v (insertIdx l index v) = countOcc v l + 1 := by
  cases index with
  | none =>
    show (if v = v then 1 else 0) + countOcc v l = countOcc v l + 1
    rw [if_pos rfl]
    omega
  | some i => exact countOcc_takeInsert v l _

theorem countOcc_filter_ne (v : String) (l : List String) :
    countOcc v (l.filter fun x => x != v) = 0 := by
  induction l with
  | nil => rfl
  | cons x rest ih =>
    by_cases hx : x = v
    · simp [List.filter_cons, hx, ih]
    · simp [List.filter_cons, hx, countOcc, ih]

theorem mem_filter_bne {x d : String} {l : List String} :
    x ∈ l.filter (fun y => y != d) ↔ x ∈ l ∧ x ≠ d := by
  simp [List.mem_filter]

theorem isSome_jsAssign {α : Type} {x k : String} {l : List (String × α)} {v : α}
    (h : (alistGet x l).isSome = true) : (alistGet x (jsAssign l k v)).isSome = true := by
  by_cases hx : x = k
  · subst hx
    rw [alistGet_jsAssign_self]
    rfl
  · rw [alistGet_jsAssign_ne l v hx]
    exact h

/-! ### Preservation of the lane invariants by each handler -/

theorem integrity_itemAdd {s : BoardState} (hI : Integrity s)
    (item : JsObj) (lane : String) (index : Option Int) (mtime now : Int)
    (hfresh : ∀ i, alistGet "id" item = some i → alistGet i s.items = none) :
    Integrity (itemAdd s item lane index mtime now).1 := by
  obtain ⟨hRef, hOne⟩ := hI
  unfold itemAdd
  split
  · exact ⟨hRef, hOne⟩
  next i hid =>
    by_cases hi : i = ""
    · rw [if_pos hi]
      exact ⟨hRef, hOne⟩
    · rw [if_neg hi]
      by_cases hlane : lane = ""
      · rw [if_pos hlane]
        exact ⟨hRef, hOne⟩
      · rw [if_neg hlane]
        cases hl : alistGet lane s.lanes with
        | none => exact ⟨hRef, hOne⟩
        | some laneList =>
          have hfresh' : alistGet i s.items = none := hfresh i hid
          have hmemLane : (lane, laneList) ∈ s.lanes := alistGet_mem hl
          constructor
          · intro kv hkv x hx
            rcases mem_jsAssign hkv with hkv1 | ⟨hkv2, hkvne⟩
            · subst hkv1
              rcases mem_insertIdx.1 hx with hx1 | hx2
              · have hgoal : (alistGet i (jsAssign s.items i item)).isSome = true := by
                  rw [alistGet_jsAssign_self]
                  rfl
                rw [hx1]
                exact hgoal
              · have hx3 : x ∈ laneList := (mem_filter_bne.1 hx2).1
                exact isSome_jsAssign (hRef _ hmemLane x hx3)
            · exact isSome_jsAssign (hRef kv hkv2 x hx)
          · intro kv hkv kw hkw x hx hx'
            rcases mem_jsAssign hkv with hkv1 | ⟨hkv2, hkvne⟩ <;>
              rcases mem_jsAssign hkw with hkw1 | ⟨hkw2, hkwne⟩
            · subst hkv1
              subst hkw1
              rfl
            · subst hkv1
              rcases mem_insertIdx.1 hx with hx1 | hx2
              · have hcontra := hRef kw hkw2 x hx'
                rw [hx1, hfresh'] at hcontra
                simp at hcontra
              · have hx3 : x ∈ laneList := (mem_filter_bne.1 hx2).1
                show lane = kw.1
                exact hOne (lane, laneList) hmemLane kw hkw2 x hx3 hx'
            · subst hkw1
              rcases mem_insertIdx.1 hx' with hx1 | hx2
              · have hcontra := hRef kv hkv2 x hx
                rw [hx1, hfresh'] at hcontra
                simp at hcontra
              · have hx3 : x ∈ laneList := (mem_filter_bne.1 hx2).1
                show kv.1 = lane
                exact (hOne (lane, laneList) hmemLane kv hkv2 x hx3 hx).symm
            · exact hOne kv hkv2 kw hkw2 x hx hx'

theorem integrity_itemDelete {s : BoardState} (hI : Integrity s)
    (id : String) (mtime now : Int) :
    Integrity (itemDelete s id mtime now).1 := by
  obtain ⟨hRef, hOne⟩ := hI
  unfold itemDelete
  by_cases hid : id = ""
  · rw [if_pos hid]
    exact ⟨hRef, hOne⟩
  · rw [if_neg hid]
    cases hg : alistGet id s.items with
    | none => exact ⟨hRef, hOne⟩
    | some w =>
      constructor
      · intro kv hkv x hx
        obtain ⟨q, hq, hmap⟩ := List.mem_map.1 hkv
        subst hmap
        have hx2 := mem_filter_bne.1 hx
        show (alistGet x (s.items.filter fun kv => kv.1 != id)).isSome = true
        rw [alistGet_filterKeyNe_of_ne _ hx2.2]
        exact hRef q hq x hx2.1
      · intro kv hkv kw hkw x hx hx'
        obtain ⟨q, hq, hmapq⟩ := List.mem_map.1 hkv
        obtain ⟨r, hr, hmapr⟩ := List.mem_map.1 hkw
        subst hmapq
        subst hmapr
        have hxq := (mem_filter_bne.1 hx).1
        have hxr := (mem_filter_bne.1 hx').1
        exact hOne q hq r hr x hxq hxr

theorem integrity_itemPatch {s : BoardState} (hI : Integrity s)
    (id : String) (patch : JsObj) (mtime now : Int) :
    Integrity (itemPatch s id patch mtime now).1 := by
  obtain ⟨hRef, hOne⟩ := hI
  unfold itemPatch
  by_cases hid : id = ""
  · rw [if_pos hid]
    exact ⟨hRef, hOne⟩
  · rw [if_neg hid]
    cases hg : alistGet id s.items with
    | none => exact ⟨hRef, hOne⟩
    | some existing =>
      constructor
      · intro kv hkv x hx
        exact isSome_jsAssign (hRef kv hkv x hx)
      · exact hOne

theorem integrity_lanesMove {s : BoardState} (hI : Integrity s)
    (id fromLane toLane : String) (index : Option Int) (mtime now : Int)
    (hloc : ∀ l, alistGet fromLane s.lanes = some l → id ∈ l) :
    Integrity (lanesMove s id fromLane toLane index mtime now).1 := by
  obtain ⟨hRef, hOne⟩ := hI
  unfold lanesMove
  by_cases hguard : id = "" ∨ fromLane = "" ∨ toLane = ""
  · rw [if_pos hguard]
    exact ⟨hRef, hOne⟩
  · rw [if_neg hguard]
    cases hf : alistGet fromLane s.lanes with
    | none => exact ⟨hRef, hOne⟩
    | some fromList =>
      cases ht : alistGet toLane s.lanes with
      | none => exact ⟨hRef, hOne⟩
      | some toList =>
        have hmemFrom : (fromLane, fromList) ∈ s.lanes := alistGet_mem hf
        have hmemTo : (toLane, toList) ∈ s.lanes := alistGet_mem ht
        have hidFrom : id ∈ fromList := hloc fromList hf
        constructor
        · intro kv hkv x hx
          rcases mem_jsAssign hkv with hkv1 | ⟨hkv2, hkvne⟩
          · subst hkv1
            rcases mem_insertIdx.1 hx with hx1 | hx2
            · subst hx1
              exact hRef _ hmemFrom x hidFrom
            · exact hRef _ hmemTo x hx2
          · rcases mem_jsAssign hkv2 with hkv3 | ⟨hkv4, hkvne2⟩
            · subst hkv3
              have hx2 := mem_filter_bne.1 hx
              exact hRef _ hmemFrom x hx2.1
            · exact hRef kv hkv4 x hx
        · intro kv hkv kw hkw x hx hx'
          rcases mem_jsAssign hkv with hkv1 | ⟨hkv2, hkvneT⟩ <;>
            rcases mem_jsAssign hkw with hkw1 | ⟨hkw2, hkwneT⟩
          · subst hkv1
            subst hkw1
            rfl
          · subst hkv1
            rcases mem_jsAssign hkw2 with hkw3 | ⟨hkw4, hkwneF⟩
            · subst hkw3
              have hxw := mem_filter_bne.1 hx'
              rcases mem_insertIdx.1 hx with hx1 | hx2
              · exact absurd hx1 hxw.2
              · show toLane = fromLane
                exact hOne (toLane, toList) hmemTo (fromLane, fromList) hmemFrom x hx2 hxw.1
            · rcases mem_insertIdx.1 hx with hx1 | hx2
              · rw [hx1] at hx
                have := hOne (fromLane, fromList) hmemFrom kw hkw4 id hidFrom (hx1 ▸ hx')
                exact absurd this.symm hkwneF
              · show toLane = kw.1
                exact hOne (toLane, toList) hmemTo kw hkw4 x hx2 hx'
          · subst hkw1
            rcases mem_jsAssign hkv2 with hkv3 | ⟨hkv4, hkvneF⟩
            · subst hkv3
              have hxv := mem_filter_bne.1 hx
              rcases mem_insertIdx.1 hx' with hx1 | hx2
              · exact absurd hx1 hxv.2
              · show fromLane = toLane
                exact hOne (fromLane, fromList) hmemFrom (toLane, toList) hmemTo x hxv.1 hx2
            · rcases mem_insertIdx.1 hx' with hx1 | hx2
              · have := hOne (fromLane, fromList) hmemFrom kv hkv4 id hidFrom (hx1 ▸ hx)
                exact absurd this hkvneF.symm
              · show kv.1 = toLane
                exact (hOne (toLane, toList) hmemTo kv hkv4 x hx2 hx).symm
          · rcases mem_jsAssign hkv2 with hkv3 | ⟨hkv4, hkvneF⟩ <;>
              rcases mem_jsAssign hkw2 with hkw3 | ⟨hkw4, hkwneF⟩
            · subst hkv3
              subst hkw3
              rfl
            · subst hkv3
              have hxv := mem_filter_bne.1 hx
              show fromLane = kw.1
              exact hOne (fromLane, fromList) hmemFrom kw hkw4 x hxv.1 hx'
            · subst hkw3
              have hxw := mem_filter_bne.1 hx'
              show kv.1 = fromLane
              exact (hOne (fromLane, fromList) hmemFrom kv hkv4 x hxw.1 hx).symm
            · exact hOne kv hkv4 kw hkw4 x hx hx'

theorem integrity_applyOp {s : BoardState} (hI : Integrity s) {o : Op} {now : Int}
    (hg : goodOp s o = true) : Integrity (applyOp s o now).1 := by
  cases o with
  | add item lane index mtime =>
    refine integrity_itemAdd hI item lane index mtime now ?_
    intro i hid
    simp only [goodOp, hid] at hg
    exact Option.isNone_iff_eq_none.1 hg
  | del i mtime => exact integrity_itemDelete hI i mtime now
  | patch i fields mtime => exact integrity_itemPatch hI i fields mtime now
  | move i fromLane toLane index mtime =>
    refine integrity_lanesMove hI i fromLane toLane index mtime now ?_
    intro l hl
    simp only [goodOp, hl] at hg
    exact of_decide_eq_true hg

theorem integrity_runOps {s : BoardState} (hI : Integrity s) {ops : List (Op × Int)}
    (hg : goodRun s ops = true) : Integrity (runOps s ops) := by
  induction ops generalizing s with
  | nil => exact hI
  | cons p rest ih =>
    obtain ⟨o, now⟩ := p
    simp only [goodRun, Bool.and_eq_true] at hg
    exact ih (integrity_applyOp hI hg.1) hg.2

theorem integrity_initState (d0 : Int) : Integrity (initState d0) := by
  constructor
  · intro kv hkv x hx
    simp only [initState, List.mem_cons, List.not_mem_nil, or_false] at hkv
    rcases hkv with h|h|h|h|h <;> subst h <;> exact absurd hx (List.not_mem_nil x)
  · intro kv hkv kw hkw x hx hx'
    simp only [initState, List.mem_cons, List.not_mem_nil, or_false] at hkv
    rcases hkv with h|h|h|h|h <;> subst h <;> exact absurd hx (List.not_mem_nil x)

/-! ### Explicit forms of the handlers when their guards pass -/

theorem itemAdd_eq {s : BoardState} {item : JsObj} {lane : String} {index : Option Int}
    {mtime now : Int} {i : String} {laneList : List String}
    (hid : alistGet "id" item = some i) (hi : i ≠ "") (hlane : lane ≠ "")
    (hl : alistGet lane s.lanes = some laneList) :
    itemAdd s item lane index mtime now =
      ({ lanes := jsAssign s.lanes lane (insertIdx (laneList.filter fun x => x != i) index i)
         items := jsAssign s.items i item
         lastUpdated := resolveTime mtime now },
       some (Broadcast.addApply item lane index (resolveTime mtime now))) := by
  unfold itemAdd
  rw [hid]
  simp [hi, hlane, hl]

theorem itemDelete_eq {s : BoardState} {id : String} {mtime now : Int} {w : JsObj}
    (hid : id ≠ "") (hw : alistGet id s.items = some w) :
    itemDelete s id mtime now =
      ({ lanes := s.lanes.map fun kv => (kv.1, kv.2.filter fun x => x != id)
         items := s.items.filter fun kv => kv.1 != id
         lastUpdated := resolveTime mtime now },
       some (Broadcast.deleteApply id (resolveTime mtime now))) := by
  unfold itemDelete
  rw [if_neg hid, hw]

theorem itemPatch_eq {s : BoardState} {id : String} {patch : JsObj} {mtime now : Int}
    {existing : JsObj} (hid : id ≠ "") (hex : alistGet id s.items = some existing) :
    itemPatch s id patch mtime now =
      ({ s with
          items := jsAssign s.items id (jsMerge existing patch)
          lastUpdated := resolveTime mtime now },
       some (Broadcast.patchApply id patch (resolveTime mtime now))) := by
  unfold itemPatch
  rw [if_neg hid, hex]

theorem lanesMove_eq {s : BoardState} {id fromLane toLane : String} {index : Option Int}
    {mtime now : Int} {fromList toList : List String}
    (hid : id ≠ "") (hf' : fromLane ≠ "") (ht' : toLane ≠ "")
    (hf : alistGet fromLane s.lanes = some fromList)
    (ht : alistGet toLane s.lanes = some toList) :
    lanesMove s id fromLane toLane index mtime now =
      ({ s with
          lanes := jsAssign (jsAssign s.lanes fromLane (fromList.filter fun x => x != id))
                     toLane (insertIdx toList index id)
          lastUpdated := resolveTime mtime now },
       some (Broadcast.moveApply id fromLane toLane index (resolveTime mtime now))) := by
  unfold lanesMove
  rw [if_neg (by simp [hid, hf', ht']), hf, ht]

theorem replicaPatchApply_eq {prev : BoardState} {id : String} {patch : JsObj}
    {mtime now : Int} {existing : JsObj} (hex : alistGet id prev.items = some existing) :
    replicaPatchApply prev id patch mtime now =
      { prev with
          items := jsAssign prev.items id (jsMerge existing patch)
          lastUpdated := resolveTime mtime now } := by
  unfold replicaPatchApply
  rw [hex]

/-! ### Concrete sample data for witnesses and counterexamples -/

/-- A sample item record with id x1. -/
def sampleItem1 : JsObj := [("id", "x1"), ("callsign", "JBU123")]

/-- A different item record carrying the same id x1. -/
def sampleItem2 : JsObj := [("id", "x1"), ("callsign", "AAL900")]

/-- The board after adding sampleItem1 to the Unassigned lane of a fresh
board: items hold x1, the Unassigned lane list is just x1. -/
def sampleState : BoardState := (itemAdd (initState 0) sampleItem1 "Unassigned" none 1 1).1

/-- A snapshot whose Unassigned lane holds a stale id (ghost) that is not
a key of its items map. -/
def sampleSnapshot : BoardState :=
  { lanes := [("Unassigned", ["ghost", "x1"]), ("New York", []), ("Curacao", []),
              ("Piarco", []), ("Maiquetia", [])]
    items := [("x1", sampleItem1)]
    lastUpdated := 5 }

/-! ### Claim theorems -/

/-- Claim C1, counterexample: the claim as stated is false. From the empty
initial state, a single accepted lanes:move of an id that was never added
(the broadcast is emitted, so the operation is accepted) produces a
reachable state whose Curacao lane holds an id that is not a key of the
items map, violating referential integrity. -/
theorem move_unknown_id_breaks_integrity :
    (applyOp (initState 0) (Op.move "x1" "Unassigned" "Curacao" none 1) 0).2.isSome = true ∧
    ¬ Integrity (runOps (initState 0) [(Op.move "x1" "Unassigned" "Curacao" none 1, 0)]) := by
  constructor
  · decide
  · intro hI
    have h2 := hI.1 ("Curacao", ["x1"]) (by decide) "x1" (by decide)
    exact absurd h2 (by decide)

/-- Claim C1 (amended): referential integrity holds for every state
reachable from the empty initial state by operations that satisfy the
preconditions the spec states for them (each accepted add carries an id
not already in items and each move targets an id currently in the source
lane list): every id in every lane list is then a key of the items map,
and every id lies in at most one lane. -/
theorem integrity_of_good_runs (d0 : Int) (ops : List (Op × Int))
    (h : goodRun (initState d0) ops = true) :
    Integrity (runOps (initState d0) ops) :=
  integrity_runOps (integrity_initState d0) h

/-- Witness for the amended C1 theorem: a concrete four-operation run
(add, in-board move, patch, delete) satisfying the preconditions, whose
final state the theorem certifies. -/
theorem integrity_of_good_runs_witness :
    goodRun (initState 0) [(Op.add sampleItem1 "Unassigned" none 1, 0),
      (Op.move "x1" "Unassigned" "Curacao" (some 0) 2, 0),
      (Op.patch "x1" [("altitude", "FL350")] 3, 0),
      (Op.del "x1" 4, 0)] = true ∧
    Integrity (runOps (initState 0) [(Op.add sampleItem1 "Unassigned" none 1, 0),
      (Op.move "x1" "Unassigned" "Curacao" (some 0) 2, 0),
      (Op.patch "x1" [("altitude", "FL350")] 3, 0),
      (Op.del "x1" 4, 0)]) :=
  ⟨by decide, integrity_of_good_runs 0 _ (by decide)⟩

/-- Claim C2, counterexample: the claim as stated is false. An item:add
whose id x1 is already a key of items is not rejected: the stored record
is overwritten by the new item, lastUpdated changes, and a broadcast is
emitted. -/
theorem add_existing_id_overwrites :
    alistGet "x1" sampleState.items = some sampleItem1 ∧
    (itemAdd sampleState sampleItem2 "Unassigned" none 2 2).2.isSome = true ∧
    alistGet "x1" (itemAdd sampleState sampleItem2 "Unassigned" none 2 2).1.items
      = some sampleItem2 ∧
    sampleItem2 ≠ sampleItem1 ∧
    (itemAdd sampleState sampleItem2 "Unassigned" none 2 2).1.lastUpdated ≠
      sampleState.lastUpdated := by
  decide

/-- Claim C2 (amended): an add whose item id is already a key of the items
map is accepted exactly like any other guard-passing add: the stored
record is replaced by the new item, lastUpdated is restamped from the
message, and a broadcast is emitted; only a missing or empty id, an empty
lane name, or an unknown lane causes the silent no-op. -/
theorem add_existing_id_is_accepted (s : BoardState) (item : JsObj) (lane : String)
    (index : Option Int) (mtime now : Int) (i : String) (laneList : List String)
    (hid : alistGet "id" item = some i) (hi : i ≠ "") (hlane : lane ≠ "")
    (hl : alistGet lane s.lanes = some laneList)
    (_hpresent : (alistGet i s.items).isSome = true) :
    (itemAdd s item lane index mtime now).2.isSome = true ∧
    alistGet i (itemAdd s item lane index mtime now).1.items = some item ∧
    (itemAdd s item lane index mtime now).1.lastUpdated = resolveTime mtime now := by
  rw [itemAdd_eq hid hi hlane hl]
  exact ⟨rfl, alistGet_jsAssign_self s.items i item, rfl⟩

/-- Witness for the amended C2 theorem: re-adding id x1 with a different
record on a board already holding x1 overwrites the stored record. -/
theorem add_existing_id_is_accepted_witness :
    (alistGet "x1" sampleState.items).isSome = true ∧
    alistGet "x1" (itemAdd sampleState sampleItem2 "Unassigned" none 5 9).1.items
      = some sampleItem2 :=
  ⟨by decide,
    (add_existing_id_is_accepted sampleState sampleItem2 "Unassigned" none 5 9 "x1"
      ["x1"] (by decide) (by decide) (by decide) (by decide) (by decide)).2.1⟩

/-- Claim C3, counterexample: the claim as stated is false. An accepted
in-lane move (from equals to) of the only id of the Unassigned lane
leaves the lane holding the id twice, not exactly once: the insertion
uses the unfiltered previous list and the write of the target entry
overwrites the write of the filtered source entry. -/
theorem move_same_lane_duplicates_id :
    (lanesMove sampleState "x1" "Unassigned" "Unassigned" (some 0) 2 2).2.isSome = true ∧
    alistGet "Unassigned"
      (lanesMove sampleState "x1" "Unassigned" "Unassigned" (some 0) 2 2).1.lanes
      = some ["x1", "x1"] ∧
    countOcc "x1" ["x1", "x1"] ≠ 1 := by
  decide

/-- Claim C3 (amended): after an accepted move the items map is unchanged
and the target lane equals its previous list with the id inserted, so the
occurrence count of the id there grows by exactly one (hence the id is
present exactly once only if it was absent before, and a from-equals-to
move duplicates it); when the two lanes differ the id is absent from the
source lane afterwards. -/
theorem move_occurrence_counts (s : BoardState) (id fromLane toLane : String)
    (index : Option Int) (mtime now : Int) (fromList toList : List String)
    (hid : id ≠ "") (hf' : fromLane ≠ "") (ht' : toLane ≠ "")
    (hf : alistGet fromLane s.lanes = some fromList)
    (ht : alistGet toLane s.lanes = some toList) :
    (lanesMove s id fromLane toLane index mtime now).2.isSome = true ∧
    (lanesMove s id fromLane toLane index mtime now).1.items = s.items ∧
    alistGet toLane (lanesMove s id fromLane toLane index mtime now).1.lanes
      = some (insertIdx toList index id) ∧
    countOcc id (insertIdx toList index id) = countOcc id toList + 1 ∧
    (fromLane ≠ toLane →
      alistGet fromLane (lanesMove s id fromLane toLane index mtime now).1.lanes
        = some (fromList.filter fun x => x != id) ∧
      id ∉ fromList.filter fun x => x != id) := by
  rw [lanesMove_eq hid hf' ht' hf ht]
  refine ⟨rfl, rfl, alistGet_jsAssign_self _ toLane _,
    countOcc_insertIdx id toList index, ?_⟩
  intro hne
  constructor
  · rw [alistGet_jsAssign_ne _ _ hne]
    exact alistGet_jsAssign_self _ fromLane _
  · intro hmem
    exact (mem_filter_bne.1 hmem).2 rfl

/-- Witness for the amended C3 theorem: moving x1 from Unassigned to the
empty Curacao lane leaves Curacao holding x1 once and the occurrence count
grown by one. -/
theorem move_occurrence_counts_witness :
    countOcc "x1" (insertIdx [] (some 0) "x1") = countOcc "x1" [] + 1 ∧
    alistGet "Curacao"
      (lanesMove sampleState "x1" "Unassigned" "Curacao" (some 0) 7 9).1.lanes
      = some ["x1"] := by
  have h := move_occurrence_counts sampleState "x1" "Unassigned" "Curacao" (some 0) 7 9
    ["x1"] [] (by decide) (by decide) (by decide) (by decide) (by decide)
  exact ⟨h.2.2.2.1, h.2.2.1.trans (by decide)⟩

/-- Claim C4, counterexample: the claim as stated is false. A patch whose
payload names the id field overwrites it like any other field: patching
x1 with an id of EVIL stores a record whose id field is EVIL. -/
theorem patch_can_replace_id_field :
    (itemPatch sampleState "x1" [("id", "EVIL")] 2 2).2.isSome = true ∧
    alistGet "x1" (itemPatch sampleState "x1" [("id", "EVIL")] 2 2).1.items
      = some [("id", "EVIL"), ("callsign", "JBU123")] ∧
    ("EVIL" : String) ≠ "x1" := by
  decide

/-- Claim C4 (amended): an accepted patch shallow-merges the payload into
the existing record, and every field not named in the payload keeps its
previous value; in particular id and source are preserved whenever the
payload does not name them, but a payload that does name them overwrites
them like any other field. -/
theorem patch_preserves_unnamed_fields (s : BoardState) (id : String) (patch : JsObj)
    (mtime now : Int) (existing : JsObj) (k : String)
    (hid : id ≠ "") (hex : alistGet id s.items = some existing)
    (hk : alistGet k patch = none) :
    (itemPatch s id patch mtime now).2.isSome = true ∧
    alistGet id (itemPatch s id patch mtime now).1.items
      = some (jsMerge existing patch) ∧
    alistGet k (jsMerge existing patch) = alistGet k existing := by
  rw [itemPatch_eq hid hex]
  exact ⟨rfl, alistGet_jsAssign_self _ id _, alistGet_jsMerge_of_nopatch hk⟩

/-- Witness for the amended C4 theorem: patching only altitude leaves the
callsign field of the stored record unchanged. -/
theorem patch_preserves_unnamed_fields_witness :
    alistGet "callsign" (jsMerge sampleItem1 [("altitude", "FL350")])
      = alistGet "callsign" sampleItem1 :=
  (patch_preserves_unnamed_fields sampleState "x1" [("altitude", "FL350")] 7 9 sampleItem1
    "callsign" (by decide) (by decide) (by decide)).2.2

/-- Claim C5: deleting an id that is not a key of the items map leaves the
entire board state (items, every lane list, lastUpdated) unchanged and
emits no broadcast. -/
theorem delete_unknown_id_noop (s : BoardState) (id : String) (mtime now : Int)
    (h : alistGet id s.items = none) :
    itemDelete s id mtime now = (s, none) := by
  unfold itemDelete
  by_cases hid : id = ""
  · rw [if_pos hid]
  · rw [if_neg hid, h]

/-- Witness for the C5 theorem: deleting x1 on a board that never held x1
returns the state unchanged with no broadcast. -/
theorem delete_unknown_id_noop_witness :
    itemDelete (initState 0) "x1" 5 9 = (initState 0, none) :=
  delete_unknown_id_noop (initState 0) "x1" 5 9 (by decide)

/-- Claim C6: board:pull leaves the board state unchanged and returns it,
and two consecutive pulls with no intervening mutation return identical
board states. -/
theorem pull_has_no_side_effects (s : BoardState) :
    (boardPull s).1 = s ∧ (boardPull s).2 = s ∧
    (boardPull (boardPull s).1).2 = (boardPull s).2 :=
  ⟨rfl, rfl, rfl⟩

/-- Claim C7: applying two patches to the same item and the same field in
order, at the authority and equally through the replica patch-apply
handler, leaves the field at the value carried by the second-applied
patch (last-applied-wins). -/
theorem patch_last_applied_wins (s : BoardState) (id : String) (p1 p2 : JsObj)
    (k v : String) (mt1 mt2 now1 now2 : Int) (e : JsObj)
    (hid : id ≠ "") (hex : alistGet id s.items = some e)
    (hv : alistGet k p2 = some v) :
    (∃ e2, alistGet id ((itemPatch (itemPatch s id p1 mt1 now1).1 id p2 mt2 now2).1).items
        = some e2 ∧ alistGet k e2 = some v) ∧
    (∃ e2, alistGet id
        (replicaPatchApply (replicaPatchApply s id p1 mt1 now1) id p2 mt2 now2).items
        = some e2 ∧ alistGet k e2 = some v) := by
  refine ⟨⟨jsMerge (jsMerge e p1) p2, ?_, alistGet_jsMerge_of_patch hv⟩,
    ⟨jsMerge (jsMerge e p1) p2, ?_, alistGet_jsMerge_of_patch hv⟩⟩
  · have h1 : alistGet id (itemPatch s id p1 mt1 now1).1.items = some (jsMerge e p1) := by
      rw [itemPatch_eq hid hex]
      exact alistGet_jsAssign_self _ id _
    rw [itemPatch_eq hid h1]
    exact alistGet_jsAssign_self _ id _
  · have h1 : alistGet id (replicaPatchApply s id p1 mt1 now1).items
        = some (jsMerge e p1) := by
      rw [replicaPatchApply_eq hex]
      exact alistGet_jsAssign_self _ id _
    rw [replicaPatchApply_eq h1]
    exact alistGet_jsAssign_self _ id _

/-- Witness for the C7 theorem: patching altitude FL300 then FL350 on x1
leaves altitude FL350 at the authority. -/
theorem patch_last_applied_wins_witness :
    ∃ e2, alistGet "x1"
        ((itemPatch (itemPatch sampleState "x1" [("altitude", "FL300")] 2 2).1 "x1"
          [("altitude", "FL350")] 3 3).1).items = some e2 ∧
      alistGet "altitude" e2 = some "FL350" :=
  (patch_last_applied_wins sampleState "x1" [("altitude", "FL300")] [("altitude", "FL350")]
    "altitude" "FL350" 2 3 2 3 sampleItem1 (by decide) (by decide) (by decide)).1

/-- Claim C8, counterexample: the claim as stated is false for timestamp
0. An accepted add carrying the sender timestamp 0 (a falsy value in the
guard that chooses between the message time and the server clock) stores
the server clock reading 5, not 0. -/
theorem zero_timestamp_uses_server_clock :
    (itemAdd (initState 3) sampleItem1 "Unassigned" none 0 5).2.isSome = true ∧
    (itemAdd (initState 3) sampleItem1 "Unassigned" none 0 5).1.lastUpdated = 5 ∧
    (itemAdd (initState 3) sampleItem1 "Unassigned" none 0 5).1.lastUpdated ≠ 0 := by
  decide

/-- Claim C8 (amended): for every accepted mutation carrying a nonzero
sender timestamp, lastUpdated afterwards equals exactly that timestamp
(used verbatim, not replaced by the server clock); a zero timestamp is
falsy and is replaced by the server clock reading. -/
theorem nonzero_timestamp_used_verbatim (s : BoardState) (item : JsObj)
    (lane did pid mid fromLane toLane : String) (p : JsObj) (idxA idxM : Option Int)
    (mt now : Int) (hmt : mt ≠ 0) :
    ((itemAdd s item lane idxA mt now).2.isSome = true →
      (itemAdd s item lane idxA mt now).1.lastUpdated = mt) ∧
    ((itemDelete s did mt now).2.isSome = true →
      (itemDelete s did mt now).1.lastUpdated = mt) ∧
    ((itemPatch s pid p mt now).2.isSome = true →
      (itemPatch s pid p mt now).1.lastUpdated = mt) ∧
    ((lanesMove s mid fromLane toLane idxM mt now).2.isSome = true →
      (lanesMove s mid fromLane toLane idxM mt now).1.lastUpdated = mt) := by
  have hres : resolveTime mt now = mt := if_neg hmt
  refine ⟨?_, ?_, ?_, ?_⟩
  · unfold itemAdd
    split
    · simp
    · split
      · simp
      · split
        · simp
        · split
          · simp
          · intro _
            exact hres
  · unfold itemDelete
    split
    · simp
    · split
      · simp
      · intro _
        exact hres
  · unfold itemPatch
    split
    · simp
    · split
      · simp
      · intro _
        exact hres
  · unfold lanesMove
    split
    · simp
    · split
      · intro _
        exact hres
      · simp

/-- Witness for the amended C8 theorem: an accepted add with sender
timestamp 7 and server clock 99 stores lastUpdated 7. -/
theorem nonzero_timestamp_used_verbatim_witness :
    (7 : Int) ≠ 0 ∧
    (itemAdd (initState 0) sampleItem1 "Unassigned" none 7 99).1.lastUpdated = 7 :=
  ⟨by decide,
    (nonzero_timestamp_used_verbatim (initState 0) sampleItem1 "Unassigned" "d" "p" "m"
      "A" "B" [] none none 7 99 (by decide)).1 (by decide)⟩

/-- Claim C9: on receiving a snapshot the replica replaces its entire
local state with the snapshot, with every lane list filtered to the ids
that are keys of the snapshot items map, and afterwards every id left in
any lane exists in the items map. -/
theorem replica_snapshot_filters_unknown_ids (incoming : BoardState) :
    (replicaBoardState incoming).items = incoming.items ∧
    (replicaBoardState incoming).lastUpdated = incoming.lastUpdated ∧
    (replicaBoardState incoming).lanes = (incoming.lanes.map fun kv =>
      (kv.1, kv.2.filter fun i => (alistGet i incoming.items).isSome)) ∧
    ∀ kv ∈ (replicaBoardState incoming).lanes, ∀ i ∈ kv.2,
      (alistGet i (replicaBoardState incoming).items).isSome = true := by
  refine ⟨rfl, rfl, rfl, ?_⟩
  intro kv hkv i hi
  obtain ⟨q, hq, hmap⟩ := List.mem_map.1 hkv
  subst hmap
  exact (List.mem_filter.1 hi).2

/-- Witness for the C9 theorem: a snapshot with a stale ghost id in the
Unassigned lane yields a local state whose remaining id x1 is a key of
the items map. -/
theorem replica_snapshot_filters_unknown_ids_witness :
    (alistGet "x1" (replicaBoardState sampleSnapshot).items).isSome = true :=
  (replica_snapshot_filters_unknown_ids sampleSnapshot).2.2.2
    ("Unassigned", ["x1"]) (by decide) "x1" (by decide)

/-- Claim C10: after an accepted item:add the added id occurs exactly once
in the target lane list, because the handler filters any pre-existing
occurrence out of that lane before inserting. -/
theorem add_inserts_id_exactly_once (s : BoardState) (item : JsObj) (lane : String)
    (index : Option Int) (mtime now : Int) (i : String) (laneList : List String)
    (hid : alistGet "id" item = some i) (hi : i ≠ "") (hlane : lane ≠ "")
    (hl : alistGet lane s.lanes = some laneList) :
    alistGet lane (itemAdd s item lane index mtime now).1.lanes
      = some (insertIdx (laneList.filter fun x => x != i) index i) ∧
    countOcc i (insertIdx (laneList.filter fun x => x != i) index i) = 1 := by
  rw [itemAdd_eq hid hi hlane hl]
  refine ⟨alistGet_jsAssign_self _ lane _, ?_⟩
  rw [countOcc_insertIdx, countOcc_filter_ne]

/-- Witness for the C10 theorem: re-adding an item with id x1 to a lane
already listing x1 leaves the id exactly once in that lane. -/
theorem add_inserts_id_exactly_once_witness :
    countOcc "x1" (insertIdx (["x1"].filter fun x => x != "x1") none "x1") = 1 :=
  (add_inserts_id_exactly_once sampleState sampleItem1 "Unassigned" none 7 9 "x1" ["x1"]
    (by decide) (by decide) (by decide) (by decide)).2

end Coordination
